import Mathlib

/-!
Verification of the playback orchestration engine of a single-node music
server (`app/server.py`).  The in-memory queue, the playback state, the
playback director (`play_item`, `play_next`), the queue-store operations
(HTTP handlers), the player channel (`_run_socat_send`) and the state
poller (`poll_mpv_state` tick body) are shallowly embedded as pure Lean
functions.  Interaction with the external `mpv` process is modelled by
oracles (`MpvOracle`, `TickOracle`, `SocatOutcome`) supplying the values
the real code obtains over IPC; `random.shuffle` is modelled by an
arbitrary list permutation passed as a parameter.  Logging has no effect
on engine state and is not modelled.  Socket events emitted to the UI are
recorded in an `Event` list.  Python floats are modelled as rationals.
-/

/-- Resolved media details returned by the cloud resolver
(`details` dict in `server.py`).  A missing dict key is `none`. -/
structure Details where
  title : Option String := none
  thumbnail : Option String := none
  audioUrl : Option String := none
  duration : Option ℚ := none
  source : Option String := none
deriving DecidableEq, Repr

/-- A queue entry: `'id','url','status','details'` (server.py line 29). -/
structure Item where
  id : String
  url : String
  status : String
  details : Option Details := none
deriving DecidableEq, Repr

/-- The `playback_state` dict (server.py lines 30-37). -/
structure PlaybackState where
  current_id : Option String := none
  current_details : Option Details := none
  paused : Bool := true
  volume : ℚ := 50
  time : ℚ := 0
  duration : ℚ := 0
deriving DecidableEq, Repr

/-- The mutable server state touched by the engine: `queue_items`,
`playback_state` and `autoplay_enabled`. -/
structure ServerState where
  queue_items : List Item := []
  playback : PlaybackState := {}
  autoplay_enabled : Bool := true
deriving DecidableEq, Repr

/-- The initial state of the process (module-level initialisers). -/
def initState : ServerState := {}

/-- Python truthiness of an optional string (`if not audio_url`):
`None` and the empty string are falsy. -/
def pyTruthyStr : Option String → Bool
  | none => false
  | some s => !s.isEmpty

/-- A decoded mpv IPC response dict; `{}` is both fields `none`. -/
structure MpvResp where
  error : Option String := none
  data : Option String := none
deriving DecidableEq, Repr

/-- The empty dict `{}` returned by `_run_socat_send` on any failure. -/
def emptyResp : MpvResp := {}

/-- Python truthiness of a response dict (`if not result`):
an empty dict is falsy. -/
def MpvResp.truthy (r : MpvResp) : Bool :=
  r.error.isSome || r.data.isSome

/-- Oracle for the mpv side effects the engine branches on: the response
to `loadfile <url> replace` (server.py line 327). -/
structure MpvOracle where
  loadfile : String → MpvResp

/-- `find_item_index_by_id` (server.py lines 312-316): the inner loop
`for idx, item in enumerate(queue_items)`, carrying the running index. -/
def find_from (items : List Item) (item_id : String) (idx : Nat) : Int :=
  match items with
  | [] => -1
  | it :: rest => if it.id = item_id then (idx : Int) else find_from rest item_id (idx + 1)

/-- `find_item_index_by_id(item_id)`: index of the first queue item with
the given id, `-1` when absent. -/
def find_item_index_by_id (items : List Item) (item_id : String) : Int :=
  find_from items item_id 0

/-- The queue removal step of `play_item` (server.py lines 343-345):
look the id up and `pop` it when found. -/
def removeFirstById (items : List Item) (item_id : String) : List Item :=
  let idx := find_item_index_by_id items item_id
  if 0 ≤ idx then items.eraseIdx idx.toNat else items

/-- Payload of a `current` field in a `status` socket event. -/
structure CurrentInfo where
  id : String
  title : Option String := none
  thumbnail : Option String := none
  source : Option String := none
deriving DecidableEq, Repr

/-- Payload of a `status` socket event. -/
structure StatusPayload where
  paused : Bool
  time : ℚ
  duration : ℚ
  volume : ℚ
  current : Option CurrentInfo
deriving DecidableEq, Repr

/-- Socket events emitted to the UI (observation only). -/
inductive Event where
  | item_removed (id : String)
  | status (payload : StatusPayload)
  | queue_update (id : String)
  | queue_refreshed
  | queue_cleared
  | autoplay_toggled (enabled : Bool)
deriving DecidableEq, Repr

/-- `item.get('details') or \x7b\x7d` (server.py line 320): fall back to
the empty dict. -/
def detailsOrEmpty (o : Option Details) : Details := o.getD {}

/-- `play_item(item)` (server.py lines 319-360).  Returns the new state
and the emitted events.  Early-returns when the item has no truthy
`audioUrl`; early-returns when the `loadfile` response is falsy or its
error is not `success`; otherwise installs the item as currently playing,
removes it from the queue and emits an immediate status snapshot. -/
def play_item (mpv : MpvOracle) (item : Item) (s : ServerState) :
    ServerState × List Event :=
  let details := detailsOrEmpty item.details
  if ¬ pyTruthyStr details.audioUrl then (s, [])
  else
    let audio_url := details.audioUrl.getD ""
    let result := mpv.loadfile audio_url
    if ¬ result.truthy ∨ result.error ≠ some "success" then (s, [])
    else
      let pb := { s.playback with
        current_id := some item.id
        current_details := some details
        paused := false }
      -- mpv_set('media-title', title) is best-effort, no engine-state effect
      let idx := find_item_index_by_id s.queue_items item.id
      let q := removeFirstById s.queue_items item.id
      let removedEvs := if 0 ≤ idx then [Event.item_removed item.id] else []
      let st := Event.status {
        paused := false
        time := 0
        duration := details.duration.getD 0
        volume := s.playback.volume
        current := some {
          id := item.id
          title := details.title
          thumbnail := details.thumbnail
          source := details.source } }
      ({ s with queue_items := q, playback := pb }, removedEvs ++ [st])

/-- Python truthiness of `next_item.get('details')`: present or not.
(Resolver payloads are non-empty dicts, so dict truthiness coincides
with presence.) -/
def hasDetails (it : Item) : Bool := it.details.isSome

/-- The candidate slice `play_next` scans (server.py lines 369, 376-377):
the whole queue when nothing is playing; `queue_items[current_index+1:]`
when the current id is still found in the queue; the whole queue when
`find_item_index_by_id` returns `-1`. -/
def next_candidates (s : ServerState) : List Item :=
  match s.playback.current_id with
  | none => s.queue_items
  | some cid =>
    let ci := find_item_index_by_id s.queue_items cid
    if 0 ≤ ci then s.queue_items.drop (ci.toNat + 1) else s.queue_items

/-- `play_next()` (server.py lines 363-392). -/
def play_next (mpv : MpvOracle) (s : ServerState) : ServerState × List Event :=
  if ¬ s.autoplay_enabled then (s, [])
  else
    match s.playback.current_id with
    | none =>
      match s.queue_items.find? hasDetails with
      | some item => play_item mpv item s
      | none => (s, [])
    | some _ =>
      match (next_candidates s).find? hasDetails with
      | some item => play_item mpv item s
      | none =>
        ({ s with playback := { s.playback with
            current_id := none, current_details := none } },
         [Event.status {
            paused := true, time := 0, duration := 0
            volume := s.playback.volume, current := none }])

/-- `clear_queue` handler (server.py lines 467-475): empties the queue,
clears the now-playing record, sends `stop` to mpv (no engine-state
effect) and emits `queue_cleared`. -/
def clear_queue (s : ServerState) : ServerState × List Event :=
  ({ s with
      queue_items := []
      playback := { s.playback with current_id := none, current_details := none } },
   [Event.queue_cleared])

/-- `set_volume` handler (server.py lines 444-452) after successful float
parsing.  Returns the new state and the (clamped) value sent to mpv via
`mpv_set('volume', max(0, min(100, volume)))`; the stored state keeps the
raw input. -/
def set_volume (volume : ℚ) (s : ServerState) : ServerState × ℚ :=
  ({ s with playback := { s.playback with volume := volume } },
   max 0 (min 100 volume))

/-- `play_now` handler (server.py lines 478-504).  Returns state, events
and the HTTP status code. -/
def play_now (mpv : MpvOracle) (item_id : String) (s : ServerState) :
    ServerState × List Event × Nat :=
  if item_id.isEmpty then (s, [], 400)
  else
    let idx := find_item_index_by_id s.queue_items item_id
    match s.queue_items.get? idx.toNat with
    | some item =>
      if 0 ≤ idx ∧ item.details.isSome then
        -- Move item to front of queue: pop(idx) then insert(0, item)
        let q := item :: s.queue_items.eraseIdx idx.toNat
        let s1 := { s with queue_items := q }
        let r := play_item mpv item s1
        (r.1, r.2 ++ [Event.queue_refreshed], 200)
      else (s, [], 404)
    | none => (s, [], 404)

/-- `remove_item` handler (server.py lines 507-544). -/
def remove_item (item_id : String) (s : ServerState) :
    ServerState × List Event × Nat :=
  if item_id.isEmpty then (s, [], 400)
  else
    let idx := find_item_index_by_id s.queue_items item_id
    if 0 ≤ idx then
      let q := s.queue_items.eraseIdx idx.toNat
      if s.playback.current_id = some item_id then
        ({ s with
            queue_items := q
            playback := { s.playback with current_id := none, current_details := none } },
         [Event.status {
            paused := true, time := 0, duration := 0
            volume := s.playback.volume, current := none },
          Event.item_removed item_id], 200)
      else
        ({ s with queue_items := q }, [Event.item_removed item_id], 200)
    else (s, [], 404)

/-- `shuffle_queue` handler (server.py lines 547-568).  `random.shuffle`
is modelled by the permutation parameter `perm` applied to the list that
remains after the currently playing item (when found in the queue) has
been popped; that item is re-inserted at the front afterwards. -/
def shuffle_queue (perm : List Item → List Item) (s : ServerState) :
    ServerState × List Event :=
  let popped : Option Item × List Item :=
    match s.playback.current_id with
    | some cid =>
      let idx := find_item_index_by_id s.queue_items cid
      if 0 ≤ idx then
        (s.queue_items.get? idx.toNat, s.queue_items.eraseIdx idx.toNat)
      else (none, s.queue_items)
    | none => (none, s.queue_items)
  let shuffled := perm popped.2
  let q :=
    match popped.1 with
    | some it => it :: shuffled
    | none => shuffled
  ({ s with queue_items := q }, [Event.queue_refreshed])

/-- Python indexing into a list of the given length: non-negative indices
are used as-is, negative indices count from the end (`l[-1]` is the last
element). -/
def pyIdx (i : Int) (len : Nat) : Nat :=
  if 0 ≤ i then i.toNat else len - (-i).toNat

/-- Python simultaneous swap `l[i], l[j] = l[j], l[i]`. -/
def listSwap (l : List Item) (i j : Nat) : List Item :=
  match l.get? i, l.get? j with
  | some a, some b => (l.set i b).set j a
  | _, _ => l

/-- `move_up` handler (server.py lines 571-593): swaps the item with the
one above it when `idx > 0`, otherwise answers 200 without mutating. -/
def move_up (item_id : String) (s : ServerState) :
    ServerState × List Event × Nat :=
  if item_id.isEmpty then (s, [], 400)
  else
    let idx := find_item_index_by_id s.queue_items item_id
    if 0 < idx then
      let len := s.queue_items.length
      ({ s with queue_items := listSwap s.queue_items (pyIdx idx len) (pyIdx (idx - 1) len) },
       [Event.queue_refreshed], 200)
    else (s, [], 200)

/-- `move_down` handler (server.py lines 596-618): swaps the item with
the one below it when `idx < len(queue_items) - 1`.  Note that a missing
id gives `idx = -1`, which passes this guard whenever the queue is
non-empty; the Python subscripts `queue_items[-1]` and `queue_items[0]`
then swap the last and first elements. -/
def move_down (item_id : String) (s : ServerState) :
    ServerState × List Event × Nat :=
  if item_id.isEmpty then (s, [], 400)
  else
    let idx := find_item_index_by_id s.queue_items item_id
    if idx < (s.queue_items.length : Int) - 1 then
      let len := s.queue_items.length
      ({ s with queue_items := listSwap s.queue_items (pyIdx idx len) (pyIdx (idx + 1) len) },
       [Event.queue_refreshed], 200)
    else (s, [], 200)

/-- `reorder_queue` handler (server.py lines 621-661) after successful
JSON/int extraction: `pop(old_index)` then `insert(new_index, item)` when
both indices are in `[0, len)`, otherwise 400 with no mutation. -/
def reorder_queue (old_index new_index : Int) (s : ServerState) :
    ServerState × List Event × Nat :=
  if 0 ≤ old_index ∧ old_index < (s.queue_items.length : Int)
      ∧ 0 ≤ new_index ∧ new_index < (s.queue_items.length : Int) then
    match s.queue_items.get? old_index.toNat with
    | some item =>
      let q := (s.queue_items.eraseIdx old_index.toNat).insertIdx new_index.toNat item
      ({ s with queue_items := q }, [Event.queue_refreshed], 204)
    | none => (s, [], 400)
  else (s, [], 400)

/-- `submit_url` handler (server.py lines 405-420) after form validation,
with the freshly generated uuid passed in: appends a `loading` item. -/
def submit_url (item_id url : String) (s : ServerState) : ServerState :=
  { s with queue_items := s.queue_items ++
      [{ id := item_id, url := url, status := "loading", details := none }] }

/-- The success path of `submission_worker` (server.py lines 721-736):
attach the resolver result, mark the item ready, emit `queue_update`, and
start playback when autoplay is on and nothing is playing. -/
def attach_ok (mpv : MpvOracle) (item_id : String) (d : Details) (s : ServerState) :
    ServerState × List Event :=
  let idx := find_item_index_by_id s.queue_items item_id
  if 0 ≤ idx then
    match s.queue_items.get? idx.toNat with
    | some it =>
      let it2 := { it with details := some d, status := "ready" }
      let s1 := { s with queue_items := s.queue_items.set idx.toNat it2 }
      if s.autoplay_enabled ∧ s.playback.current_id = none then
        let r := play_item mpv it2 s1
        (r.1, Event.queue_update item_id :: r.2)
      else (s1, [Event.queue_update item_id])
    | none => (s, [])
  else (s, [])

/-- The failure path of `submission_worker` (server.py lines 740-744,
751-754): mark the item `error` and emit `queue_update`. -/
def attach_err (item_id : String) (s : ServerState) : ServerState × List Event :=
  let idx := find_item_index_by_id s.queue_items item_id
  if 0 ≤ idx then
    match s.queue_items.get? idx.toNat with
    | some it =>
      ({ s with queue_items := s.queue_items.set idx.toNat { it with status := "error" } },
       [Event.queue_update item_id])
    | none => (s, [])
  else (s, [])

/-- The `stop` branch of the `control` handler (server.py lines 428-438):
sends `stop` to mpv, clears the now-playing record, emits an idle
snapshot. -/
def control_stop (s : ServerState) : ServerState × List Event :=
  ({ s with playback := { s.playback with current_id := none, current_details := none } },
   [Event.status {
      paused := true, time := 0, duration := 0
      volume := s.playback.volume, current := none }])

/-- The property values one poller tick obtains through `mpv_get`
(server.py lines 771-789); `none` models an empty response. -/
structure TickOracle where
  idle_active : Option Bool := none
  pause : Option Bool := none
  time_pos : Option ℚ := none
  duration : Option ℚ := none
  volume : Option ℚ := none
deriving Repr

/-- Python `x or default` on an optional float: `None` and `0.0` are
falsy and select the default. -/
def pyOrRat (o : Option ℚ) (dflt : ℚ) : ℚ :=
  match o with
  | some v => if v = 0 then dflt else v
  | none => dflt

/-- One iteration of the `poll_mpv_state` loop body (server.py lines
769-810) up to and including the end-of-file edge detection.  The third
component records whether the edge condition on line 793 fired (i.e.
whether `play_next()` was invoked by this tick).  The trailing `status`
emit is observation-only and mutates no engine state, so it is not
modelled. -/
def poll_tick (mpv : MpvOracle) (o : TickOracle) (s : ServerState) :
    ServerState × List Event × Bool :=
  let idle_active := o.idle_active.getD false
  let pb := s.playback
  let pb1 :=
    if ¬ idle_active then
      { pb with
          paused := o.pause.getD pb.paused
          time := o.time_pos.getD 0
          duration := o.duration.getD 0 }
    else
      { pb with paused := true, time := 0, duration := 0 }
  let pb2 := { pb1 with volume := pyOrRat o.volume pb1.volume }
  let s1 := { s with playback := pb2 }
  let fired := idle_active && pb2.current_id.isSome && !pb2.paused
  if fired then
    let r := play_next mpv s1
    (r.1, r.2, true)
  else (s1, [], false)

/-- Outcome of the `subprocess.run(['socat', ...])` transport call inside
`_run_socat_send` (server.py lines 265-271): a timeout, some other raised
exception, or completion with an exit status and the (stripped, split)
stdout lines. -/
inductive SocatOutcome where
  | timeoutExpired
  | raised
  | completed (returncode : Int) (stdoutLines : List String)
deriving Repr

/-- `_run_socat_send(message)` (server.py lines 258-296).  `mpvRunning`
models the result of `ensure_mpv_running()`; `parse` models `json.loads`
on the last stdout line (`none` models a raised decode error, which the
enclosing `except` swallows).  Every failure mode returns the empty dict;
a decoded response is returned to the caller as-is — a domain error in
its `error` field is logged (not modelled) but never raised. -/
def run_socat_send (mpvRunning : Bool) (parse : String → Option MpvResp)
    (outcome : SocatOutcome) : MpvResp :=
  if ¬ mpvRunning then emptyResp
  else
    match outcome with
    | .timeoutExpired => emptyResp
    | .raised => emptyResp
    | .completed returncode stdoutLines =>
      if returncode ≠ 0 then emptyResp
      else if stdoutLines.isEmpty then emptyResp
      else
        let last_line := stdoutLines.getLast?.getD ""
        if last_line.isEmpty then emptyResp
        else
          match parse last_line with
          | none => emptyResp
          | some result => result

/-- `mpv_get(prop)` (server.py lines 303-305): `resp.get('data')` of the
channel response. -/
def mpv_get (mpvRunning : Bool) (parse : String → Option MpvResp)
    (outcome : SocatOutcome) : Option String :=
  (run_socat_send mpvRunning parse outcome).data

/-- The engine operations that touch `queue_items` / `playback_state`,
used to state state-machine invariants.  Oracle data (resolver results,
shuffle permutation, poller readings) is carried in the operation. -/
inductive Op where
  | submit (id url : String)
  | attachOk (id : String) (d : Details)
  | attachErr (id : String)
  | playItemOp (item : Item)
  | playNextOp
  | playNow (id : String)
  | removeItem (id : String)
  | moveUp (id : String)
  | moveDown (id : String)
  | reorder (oldIdx newIdx : Int)
  | shuffle (perm : List Item → List Item)
  | clearOp
  | stopOp
  | setVol (v : ℚ)
  | tick (o : TickOracle)

/-- Dispatch an operation to its handler, keeping only the state. -/
def stepOp (mpv : MpvOracle) (op : Op) (s : ServerState) : ServerState :=
  match op with
  | .submit id url => submit_url id url s
  | .attachOk id d => (attach_ok mpv id d s).1
  | .attachErr id => (attach_err id s).1
  | .playItemOp item => (play_item mpv item s).1
  | .playNextOp => (play_next mpv s).1
  | .playNow id => (play_now mpv id s).1
  | .removeItem id => (remove_item id s).1
  | .moveUp id => (move_up id s).1
  | .moveDown id => (move_down id s).1
  | .reorder o n => (reorder_queue o n s).1
  | .shuffle perm => (shuffle_queue perm s).1
  | .clearOp => (clear_queue s).1
  | .stopOp => (control_stop s).1
  | .setVol v => (set_volume v s).1
  | .tick o => (poll_tick mpv o s).1

/-- Environment assumptions under which an operation is issued: submitted
ids are freshly generated uuids (unique), and `random.shuffle` permutes
its list. -/
def OpWf (op : Op) (s : ServerState) : Prop :=
  match op with
  | .submit id _ => id ∉ s.queue_items.map Item.id ∧ s.playback.current_id ≠ some id
  | .shuffle perm => ∀ l, (perm l).Perm l
  | _ => True

/-- The ids of the queued items. -/
def queueIds (s : ServerState) : List String := s.queue_items.map Item.id

/-- Structural state invariant: queued ids are pairwise distinct, and the
currently playing id (when set) is not among them. -/
def StateInv (s : ServerState) : Prop :=
  (queueIds s).Nodup ∧
  ∀ cid, s.playback.current_id = some cid → cid ∉ queueIds s

/-- States reachable from process start by well-formed operations. -/
inductive Reachable (mpv : MpvOracle) : ServerState → Prop where
  | init : Reachable mpv initState
  | step {s : ServerState} (op : Op) :
      Reachable mpv s → OpWf op s → Reachable mpv (stepOp mpv op s)

/-! ### Helper lemmas about the queue primitives -/

theorem find_from_neg_iff (items : List Item) (item_id : String) (k : Nat) :
    find_from items item_id k < 0 ↔ item_id ∉ items.map Item.id := by
  induction items generalizing k with
  | nil => simp [find_from]
  | cons it rest ih =>
    by_cases h : it.id = item_id
    · simp [find_from, h]
    · simp only [find_from, h, if_false, List.map_cons, List.mem_cons]
      rw [ih (k + 1)]
      constructor
      · intro hn hmem
        rcases hmem with hmem | hmem
        · exact h hmem.symm
        · exact hn hmem
      · intro hn hmem
        exact hn (Or.inr hmem)

theorem find_from_succ (items : List Item) (item_id : String) (k : Nat) :
    find_from items item_id (k + 1) =
      if 0 ≤ find_from items item_id k then find_from items item_id k + 1 else -1 := by
  induction items generalizing k with
  | nil => simp [find_from]
  | cons it rest ih =>
    by_cases h : it.id = item_id
    · simp only [find_from, h, if_true, if_pos (Int.natCast_nonneg k)]
      push_cast
      ring
    · simp only [find_from, h, if_false]
      exact ih (k + 1)

theorem find_spec (items : List Item) (item_id : String) :
    find_item_index_by_id items item_id = -1 ∨
      ∃ n : Nat, find_item_index_by_id items item_id = (n : Int) ∧
        ∃ it, items.get? n = some it ∧ it.id = item_id := by
  induction items with
  | nil => left; rfl
  | cons it rest ih =>
    by_cases h : it.id = item_id
    · right
      exact ⟨0, by simp [find_item_index_by_id, find_from, h], it, rfl, h⟩
    · have hstep : find_item_index_by_id (it :: rest) item_id =
        if 0 ≤ find_item_index_by_id rest item_id then
          find_item_index_by_id rest item_id + 1 else -1 := by
        simp only [find_item_index_by_id, find_from, h, if_false]
        exact find_from_succ rest item_id 0
      rcases ih with hneg | ⟨n, hn, it2, hget, hid⟩
      · left
        rw [hstep, hneg]
        norm_num
      · right
        refine ⟨n + 1, ?_, it2, by simpa using hget, hid⟩
        rw [hstep, hn]
        norm_num

theorem find_eq_neg_one_of_not_mem {items : List Item} {item_id : String}
    (h : item_id ∉ items.map Item.id) : find_item_index_by_id items item_id = -1 := by
  rcases find_spec items item_id with h1 | ⟨n, hn, it, hget, hid⟩
  · exact h1
  · exact absurd (List.mem_map.mpr ⟨it, List.get?_mem hget, hid⟩) h

theorem removeFirstById_rec (l : List Item) (item_id : String) :
    removeFirstById l item_id =
      match l with
      | [] => []
      | it :: rest =>
        if it.id = item_id then rest else it :: removeFirstById rest item_id := by
  match l with
  | [] => rfl
  | it :: rest =>
    by_cases h : it.id = item_id
    · simp [removeFirstById, find_item_index_by_id, find_from, h]
    · show removeFirstById (it :: rest) item_id =
        if it.id = item_id then rest else it :: removeFirstById rest item_id
      rw [if_neg h]
      have hstep : find_from (it :: rest) item_id 0 =
          if 0 ≤ find_from rest item_id 0 then find_from rest item_id 0 + 1 else -1 := by
        simp only [find_from, h, if_false]
        exact find_from_succ rest item_id 0
      by_cases hpos : 0 ≤ find_from rest item_id 0
      · obtain ⟨n, hn⟩ : ∃ n : ℕ, find_from rest item_id 0 = (n : Int) :=
          ⟨(find_from rest item_id 0).toNat, (Int.toNat_of_nonneg hpos).symm⟩
        have h1 : find_from (it :: rest) item_id 0 = ((n + 1 : Nat) : Int) := by
          rw [hstep, if_pos hpos, hn]
          push_cast
          ring
        have h2 : removeFirstById (it :: rest) item_id = (it :: rest).eraseIdx (n + 1) := by
          simp only [removeFirstById, find_item_index_by_id, h1]
          rw [if_pos (Int.natCast_nonneg (n + 1)), Int.toNat_natCast]
        have h3 : removeFirstById rest item_id = rest.eraseIdx n := by
          simp only [removeFirstById, find_item_index_by_id, hn]
          rw [if_pos (Int.natCast_nonneg n), Int.toNat_natCast]
        rw [h2, h3]
        rfl
      · have h1 : find_from (it :: rest) item_id 0 = -1 := by
          rw [hstep, if_neg hpos]
        have h2 : removeFirstById (it :: rest) item_id = it :: rest := by
          simp only [removeFirstById, find_item_index_by_id, h1]
          norm_num
        have h3 : removeFirstById rest item_id = rest := by
          simp only [removeFirstById, find_item_index_by_id]
          rw [if_neg hpos]
        rw [h2, h3]

theorem removeFirstById_nil (item_id : String) : removeFirstById [] item_id = [] := rfl

theorem removeFirstById_cons (it : Item) (rest : List Item) (item_id : String) :
    removeFirstById (it :: rest) item_id =
      if it.id = item_id then rest else it :: removeFirstById rest item_id :=
  removeFirstById_rec (it :: rest) item_id

theorem removeFirstById_sublist (l : List Item) (item_id : String) :
    (removeFirstById l item_id).Sublist l := by
  induction l with
  | nil => rw [removeFirstById_nil]
  | cons it rest ih =>
    rw [removeFirstById_cons]
    by_cases h : it.id = item_id
    · rw [if_pos h]
      exact List.sublist_cons_self it rest
    · rw [if_neg h]
      exact List.Sublist.cons₂ it ih

theorem not_mem_removeFirstById {l : List Item} {item_id : String}
    (hnd : (l.map Item.id).Nodup) :
    item_id ∉ (removeFirstById l item_id).map Item.id := by
  induction l with
  | nil => rw [removeFirstById_nil]; simp
  | cons it rest ih =>
    rw [removeFirstById_cons]
    simp only [List.map_cons, List.nodup_cons] at hnd
    by_cases h : it.id = item_id
    · rw [if_pos h, ← h]
      exact hnd.1
    · rw [if_neg h]
      simp only [List.map_cons, List.mem_cons]
      intro hc
      rcases hc with hc | hc
      · exact h hc.symm
      · exact ih hnd.2 hc

theorem mem_removeFirstById_of_ne {l : List Item} {item_id : String} {x : Item}
    (hx : x ∈ l) (hne : x.id ≠ item_id) : x ∈ removeFirstById l item_id := by
  induction l with
  | nil => simp at hx
  | cons it rest ih =>
    rw [removeFirstById_cons]
    rcases List.mem_cons.mp hx with rfl | hx2
    · rw [if_neg hne]
      exact List.mem_cons_self _ _
    · by_cases h : it.id = item_id
      · rw [if_pos h]
        exact hx2
      · rw [if_neg h]
        exact List.mem_cons.mpr (Or.inr (ih hx2))

/-! ### Permutation helpers for swap, reorder and shuffle -/

theorem set_get_self {α : Type _} : ∀ (l : List α) (n : Nat) (a : α),
    l.get? n = some a → l.set n a = l
  | [], _, _, h => by simp at h
  | x :: xs, 0, a, h => by
    simp only [List.get?_cons_zero, Option.some_inj] at h
    simp [List.set, h]
  | x :: xs, n + 1, a, h => by
    simp only [List.get?_cons_succ] at h
    simp [List.set, set_get_self xs n a h]

theorem cons_set_perm {α : Type _} : ∀ (xs : List α) (k : Nat) (x b : α),
    xs.get? k = some b → (b :: xs.set k x).Perm (x :: xs)
  | [], _, _, _, h => by simp at h
  | y :: t, 0, x, b, h => by
    simp only [List.get?_cons_zero, Option.some_inj] at h
    subst h
    simpa [List.set] using List.Perm.swap x y t
  | y :: t, k + 1, x, b, h => by
    simp only [List.get?_cons_succ] at h
    have step1 : (b :: y :: t.set k x).Perm (y :: b :: t.set k x) := List.Perm.swap y b _
    have step2 : (y :: b :: t.set k x).Perm (y :: x :: t) :=
      List.Perm.cons y (cons_set_perm t k x b h)
    have step3 : (y :: x :: t).Perm (x :: y :: t) := List.Perm.swap x y t
    simpa [List.set] using (step1.trans step2).trans step3

theorem set_set_perm {α : Type _} : ∀ (l : List α) (i j : Nat) (a b : α),
    l.get? i = some a → l.get? j = some b → ((l.set i b).set j a).Perm l
  | [], _, _, _, _, hi, _ => by simp at hi
  | x :: xs, 0, 0, a, b, hi, hj => by
    simp only [List.get?_cons_zero, Option.some_inj] at hi hj
    subst hi
    subst hj
    simp [List.set]
  | x :: xs, 0, j + 1, a, b, hi, hj => by
    simp only [List.get?_cons_zero, Option.some_inj] at hi
    simp only [List.get?_cons_succ] at hj
    subst hi
    simpa [List.set] using cons_set_perm xs j x b hj
  | x :: xs, i + 1, 0, a, b, hi, hj => by
    simp only [List.get?_cons_zero, Option.some_inj] at hj
    simp only [List.get?_cons_succ] at hi
    subst hj
    simpa [List.set] using cons_set_perm xs i x a hi
  | x :: xs, i + 1, j + 1, a, b, hi, hj => by
    simp only [List.get?_cons_succ] at hi hj
    simpa [List.set] using List.Perm.cons x (set_set_perm xs i j a b hi hj)

theorem listSwap_perm (l : List Item) (i j : Nat) : (listSwap l i j).Perm l := by
  unfold listSwap
  split
  · next a b hi hj => exact set_set_perm l i j a b hi hj
  · exact List.Perm.refl l

theorem insertIdx_perm {α : Type _} : ∀ (l : List α) (n : Nat) (a : α),
    n ≤ l.length → (l.insertIdx n a).Perm (a :: l)
  | l, 0, a, _ => by simp [List.insertIdx_zero]
  | [], n + 1, a, h => by simp at h
  | x :: xs, n + 1, a, h => by
    rw [List.insertIdx_succ_cons]
    have ih := insertIdx_perm xs n a (Nat.le_of_succ_le_succ h)
    exact (List.Perm.cons x ih).trans (List.Perm.swap a x xs)

theorem cons_eraseIdx_perm {α : Type _} : ∀ (l : List α) (n : Nat) (a : α),
    l.get? n = some a → (a :: l.eraseIdx n).Perm l
  | [], _, _, h => by simp at h
  | x :: xs, 0, a, h => by
    simp only [List.get?_cons_zero, Option.some_inj] at h
    subst h
    simp [List.eraseIdx]
  | x :: xs, n + 1, a, h => by
    simp only [List.get?_cons_succ] at h
    have ih := cons_eraseIdx_perm xs n a h
    have step1 : (a :: x :: xs.eraseIdx n).Perm (x :: a :: xs.eraseIdx n) :=
      List.Perm.swap x a _
    have step2 : (x :: a :: xs.eraseIdx n).Perm (x :: xs) := List.Perm.cons x ih
    exact step1.trans step2

theorem map_id_set {l : List Item} {n : Nat} {it it2 : Item}
    (hget : l.get? n = some it) (hid : it2.id = it.id) :
    (l.set n it2).map Item.id = l.map Item.id := by
  induction l generalizing n with
  | nil => simp at hget
  | cons x xs ih =>
    cases n with
    | zero =>
      simp only [List.get?_cons_zero, Option.some_inj] at hget
      subst hget
      simp [List.set, hid]
    | succ m =>
      simp only [List.get?_cons_succ] at hget
      simp [List.set, ih hget]

/-! ### Structural lemmas about play_item -/

theorem play_item_noaudio {mpv : MpvOracle} {item : Item} (s : ServerState)
    (h : pyTruthyStr (detailsOrEmpty item.details).audioUrl = false) :
    play_item mpv item s = (s, []) := by
  simp only [play_item]
  rw [if_pos]
  simp [h]

theorem play_item_loadfail {mpv : MpvOracle} {item : Item} (s : ServerState)
    (h : (mpv.loadfile ((detailsOrEmpty item.details).audioUrl.getD "")).error ≠
      some "success") :
    play_item mpv item s = (s, []) := by
  simp only [play_item]
  by_cases haudio : pyTruthyStr (detailsOrEmpty item.details).audioUrl
  · rw [if_neg (by simp [haudio]), if_pos (Or.inr h)]
  · rw [if_pos (by simpa using haudio)]

theorem play_item_success {mpv : MpvOracle} {item : Item} (s : ServerState)
    (haudio : pyTruthyStr (detailsOrEmpty item.details).audioUrl = true)
    (hsucc : (mpv.loadfile ((detailsOrEmpty item.details).audioUrl.getD "")).error =
      some "success") :
    play_item mpv item s =
      ({ s with
          queue_items := removeFirstById s.queue_items item.id
          playback := { s.playback with
            current_id := some item.id
            current_details := some (detailsOrEmpty item.details)
            paused := false } },
       (if 0 ≤ find_item_index_by_id s.queue_items item.id then
          [Event.item_removed item.id] else []) ++
       [Event.status {
          paused := false
          time := 0
          duration := (detailsOrEmpty item.details).duration.getD 0
          volume := s.playback.volume
          current := some {
            id := item.id
            title := (detailsOrEmpty item.details).title
            thumbnail := (detailsOrEmpty item.details).thumbnail
            source := (detailsOrEmpty item.details).source } }]) := by
  simp only [play_item]
  rw [if_neg (by simp [haudio]), if_neg]
  push_neg
  constructor
  · simp [MpvResp.truthy, hsucc]
  · exact hsucc

/-! ### Concrete fixtures used by witnesses and counterexamples -/

/-- A resolver payload with a playable stream URL. -/
def dSong (u : String) : Details :=
  { title := some "t", audioUrl := some u, duration := some 120 }

/-- An oracle whose loadfile command always succeeds. -/
def mpvOk : MpvOracle := ⟨fun _ => { error := some "success" }⟩

/-- An oracle whose loadfile command always fails. -/
def mpvFail : MpvOracle := ⟨fun _ => { error := some "error loading file" }⟩

/-- A pending (unresolved) queue item. -/
def itemA : Item := { id := "a", url := "ua", status := "loading" }

/-- The same item once resolved. -/
def itemAready : Item :=
  { id := "a", url := "ua", status := "ready", details := some (dSong "http-a") }

/-- A resolved queue item. -/
def itemB : Item :=
  { id := "b", url := "ub", status := "ready", details := some (dSong "http-b") }

/-- Another pending queue item. -/
def itemC : Item := { id := "c", url := "uc", status := "loading" }

/-- A state in which track `x` is recorded as playing (not paused) and
one unresolved item is queued. -/
def sPlaying : ServerState :=
  { queue_items := [itemA]
    playback := { current_id := some "x", current_details := some (dSong "hx")
                  paused := false, volume := 50, time := 1, duration := 2 }
    autoplay_enabled := true }

/-- Claim C1: the spec says a State Poller tick that reads the player as
idle while a track is recorded as playing (`current_id` set, not paused)
invokes `play_next()`.  In the code the idle branch overwrites
`playback_state['paused']` with `True` before line 793 tests
`not playback_state['paused']`, so the edge condition can never hold: no
tick ever invokes `play_next()`, and the tick never changes `current_id`
or the queue.  This contradicts the code's own comment ("Detect end of
file") and the spec. -/
theorem poll_tick_never_invokes_play_next (mpv : MpvOracle) (o : TickOracle)
    (s : ServerState) :
    (poll_tick mpv o s).2.2 = false ∧
    (poll_tick mpv o s).1.playback.current_id = s.playback.current_id ∧
    (poll_tick mpv o s).1.queue_items = s.queue_items := by
  cases hidle : o.idle_active.getD false with
  | false => simp [poll_tick, hidle]
  | true => simp [poll_tick, hidle]

/-- Claim C5 counterexample: the spec says `clear()` leaves `nowPlaying*`
unchanged, but `clear_queue` resets `current_id` from `some "x"` to
`none`. -/
theorem clear_queue_counterexample :
    (clear_queue sPlaying).1.playback.current_id = none ∧
    sPlaying.playback.current_id = some "x" :=
  ⟨rfl, rfl⟩

/-- Claim C5 (amended): `clear_queue` empties the queue AND clears
`nowPlayingId`/`nowPlayingMedia` (it also sends `stop` to the player);
the remaining playback fields and the autoplay flag are unchanged, and
`queue_cleared` is emitted. -/
theorem clear_queue_spec (s : ServerState) :
    (clear_queue s).1.queue_items = [] ∧
    (clear_queue s).1.playback.current_id = none ∧
    (clear_queue s).1.playback.current_details = none ∧
    (clear_queue s).1.playback.paused = s.playback.paused ∧
    (clear_queue s).1.playback.volume = s.playback.volume ∧
    (clear_queue s).1.playback.time = s.playback.time ∧
    (clear_queue s).1.playback.duration = s.playback.duration ∧
    (clear_queue s).1.autoplay_enabled = s.autoplay_enabled ∧
    (clear_queue s).2 = [Event.queue_cleared] :=
  ⟨rfl, rfl, rfl, rfl, rfl, rfl, rfl, rfl, rfl⟩

/-- Claim C6 counterexample: the spec says the stored volume always lies
in [0,100], but the handler accepts `150` and stores it verbatim (only
the value forwarded to mpv is clamped). -/
theorem set_volume_counterexample :
    (set_volume 150 sPlaying).1.playback.volume = 150 ∧
    ¬ (set_volume 150 sPlaying).1.playback.volume ≤ 100 := by
  refine ⟨rfl, ?_⟩
  show ¬ (150 : ℚ) ≤ 100
  norm_num

/-- Claim C6 (amended): `set_volume` stores the raw parsed input in
`playback_state['volume']`, so the stored value is in [0,100] exactly
when the input is; the value sent to the player is clamped to [0,100]
for every input. -/
theorem set_volume_spec (v : ℚ) (s : ServerState) :
    (set_volume v s).1.playback.volume = v ∧
    0 ≤ (set_volume v s).2 ∧ (set_volume v s).2 ≤ 100 ∧
    (0 ≤ v → v ≤ 100 →
      0 ≤ (set_volume v s).1.playback.volume ∧
      (set_volume v s).1.playback.volume ≤ 100) := by
  refine ⟨rfl, le_max_left 0 _, ?_, ?_⟩
  · exact max_le (by norm_num) (min_le_left 100 v)
  · intro h0 h100
    exact ⟨h0, h100⟩

/-- Claim C6 witness: an in-range input keeps the stored volume in
range. -/
theorem set_volume_spec_witness :
    0 ≤ (set_volume 50 initState).1.playback.volume ∧
    (set_volume 50 initState).1.playback.volume ≤ 100 :=
  (set_volume_spec 50 initState).2.2.2 (by norm_num) (by norm_num)

/-- Claim C7: `move_up` on the first item is a 200 no-op as the spec
says, but `move_down` with an id that is NOT in the queue is not
rejected: `find_item_index_by_id` yields `-1`, which passes the
`idx < len(queue_items) - 1` guard, and the Python subscripts
`queue_items[-1]`, `queue_items[0]` swap the last and first items.  The
queue is mutated although the spec requires `NotFound` to cause no state
mutation. -/
theorem move_down_notfound_mutates :
    (move_down "zzz" { queue_items := [itemA, itemC] }).1.queue_items = [itemC, itemA] ∧
    "zzz" ∉ ([itemA, itemC].map Item.id) ∧
    (move_down "zzz" { queue_items := [itemA, itemC] }).2.2 = 200 ∧
    (move_up "a" { queue_items := [itemA, itemC] }).1.queue_items = [itemA, itemC] ∧
    (move_up "a" { queue_items := [itemA, itemC] }).2.2 = 200 := by
  refine ⟨?_, by decide, rfl, ?_, rfl⟩ <;> decide

/-- Claim C9: the player channel is total and never escalates: when the
player cannot be (re)started, on transport timeout, on any other raised
transport error, on a nonzero socat exit status and on empty output it
returns the empty dict; when a response line decodes, the decoded dict is
returned to the caller unchanged, whatever its `error` field says (domain
errors are logged, not raised). -/
theorem run_socat_send_spec (parse : String → Option MpvResp) :
    (∀ outcome, run_socat_send false parse outcome = emptyResp) ∧
    (∀ running, run_socat_send running parse SocatOutcome.timeoutExpired = emptyResp) ∧
    (∀ running, run_socat_send running parse SocatOutcome.raised = emptyResp) ∧
    (∀ (rc : Int) lines, rc ≠ 0 →
      run_socat_send true parse (SocatOutcome.completed rc lines) = emptyResp) ∧
    (∀ (rc : Int), run_socat_send true parse (SocatOutcome.completed rc []) = emptyResp) ∧
    (∀ lines last r, lines.getLast? = some last → ¬ last.isEmpty →
      parse last = some r →
      run_socat_send true parse (SocatOutcome.completed 0 lines) = r) := by
  refine ⟨?_, ?_, ?_, ?_, ?_, ?_⟩
  · intro outcome
    simp [run_socat_send]
  · intro running
    cases running <;> simp [run_socat_send]
  · intro running
    cases running <;> simp [run_socat_send]
  · intro rc lines h
    simp [run_socat_send, h]
  · intro rc
    by_cases h : rc = 0 <;> simp [run_socat_send, h]
  · intro lines last r hlast hne hparse
    have hnonempty : ¬ lines.isEmpty := by
      cases lines with
      | nil => simp at hlast
      | cons x xs => simp
    simp [run_socat_send, hnonempty, hlast, hne, hparse]

/-- Claim C9 witness: a decoded response whose `error` field reports a
domain error is still returned as the call's result. -/
theorem run_socat_send_spec_witness :
    run_socat_send true
      (fun _ => some { error := some "invalid parameter" })
      (SocatOutcome.completed 0 ["resp"]) =
      { error := some "invalid parameter" } :=
  (run_socat_send_spec (fun _ => some { error := some "invalid parameter" })).2.2.2.2.2
    ["resp"] "resp" { error := some "invalid parameter" } rfl (by decide) rfl

/-- Claim C3: `play_item` mutates state only on explicit load success:
with no resolved details (or no truthy audio URL) it returns with no
side effects; when the loadfile response carries no success
acknowledgement the whole state is unchanged and a queued item stays
queued; only on acknowledged success does it install `nowPlaying*` from
the item and remove the item from the queue. -/
theorem play_item_mutates_only_on_success (mpv : MpvOracle) (item : Item)
    (s : ServerState) :
    (item.details = none → play_item mpv item s = (s, [])) ∧
    (pyTruthyStr (detailsOrEmpty item.details).audioUrl = false →
      play_item mpv item s = (s, [])) ∧
    ((mpv.loadfile ((detailsOrEmpty item.details).audioUrl.getD "")).error ≠
        some "success" →
      play_item mpv item s = (s, []) ∧
      (item ∈ s.queue_items → item ∈ (play_item mpv item s).1.queue_items)) ∧
    (∀ d, item.details = some d → pyTruthyStr d.audioUrl = true →
      (mpv.loadfile (d.audioUrl.getD "")).error = some "success" →
      (play_item mpv item s).1.playback.current_id = some item.id ∧
      (play_item mpv item s).1.playback.current_details = some d ∧
      (play_item mpv item s).1.queue_items = removeFirstById s.queue_items item.id ∧
      ((s.queue_items.map Item.id).Nodup →
        item.id ∉ ((play_item mpv item s).1.queue_items.map Item.id))) := by
  refine ⟨?_, ?_, ?_, ?_⟩
  · intro hnone
    apply play_item_noaudio
    rw [hnone]
    rfl
  · intro hfalse
    exact play_item_noaudio s hfalse
  · intro hfail
    refine ⟨play_item_loadfail s hfail, ?_⟩
    intro hmem
    rw [play_item_loadfail s hfail]
    exact hmem
  · intro d hdet haudio hsucc
    have hde : detailsOrEmpty item.details = d := by rw [hdet]; rfl
    have h := play_item_success s (by rw [hde]; exact haudio) (by rw [hde]; exact hsucc)
    rw [h]
    refine ⟨rfl, by rw [hde], rfl, ?_⟩
    intro hnd
    exact not_mem_removeFirstById hnd

/-- Claim C3 witness: playing a resolved item from a singleton queue
installs it as now playing and removes it from the queue. -/
theorem play_item_mutates_only_on_success_witness :
    (play_item mpvOk itemB { queue_items := [itemB] }).1.playback.current_id =
      some "b" ∧
    (play_item mpvOk itemB { queue_items := [itemB] }).1.playback.current_details =
      some (dSong "http-b") ∧
    (play_item mpvOk itemB { queue_items := [itemB] }).1.queue_items =
      removeFirstById [itemB] "b" :=
  have h := (play_item_mutates_only_on_success mpvOk itemB
    { queue_items := [itemB] }).2.2.2 (dSong "http-b") rfl (by decide) rfl
  ⟨h.1, h.2.1, h.2.2.1⟩

/-- Claim C10: `play_now` moves a resolved queued item to the front of
the queue before attempting the player load, so when the load fails the
queue has still been reordered (the item now heads the queue), while
`nowPlayingId`/`nowPlayingMedia` are unchanged and the handler still
answers 200 — play-now is not atomic with respect to load failure. -/
theorem play_now_not_atomic_on_load_failure (mpv : MpvOracle) (s : ServerState)
    (item_id : String) (n : Nat) (it : Item)
    (hne : item_id.isEmpty = false)
    (hfind : find_item_index_by_id s.queue_items item_id = (n : Int))
    (hget : s.queue_items.get? n = some it)
    (hd : it.details.isSome)
    (hload : (mpv.loadfile ((detailsOrEmpty it.details).audioUrl.getD "")).error ≠
      some "success") :
    (play_now mpv item_id s).1.queue_items = it :: s.queue_items.eraseIdx n ∧
    (play_now mpv item_id s).1.playback = s.playback ∧
    (play_now mpv item_id s).2.2 = 200 := by
  have hplay := @play_item_loadfail mpv it
    ({ s with queue_items := it :: s.queue_items.eraseIdx n }) hload
  simp only [play_now, hne, Bool.false_eq_true, if_false, hfind, Int.toNat_natCast,
    hget]
  rw [if_pos ⟨Int.natCast_nonneg n, hd⟩]
  rw [hplay]
  exact ⟨rfl, rfl, rfl⟩

/-- Claim C10 witness: with a two-item queue and a failing loader,
play-now on the second item leaves it moved to the front, the playback
record untouched and the response 200. -/
theorem play_now_not_atomic_witness :
    (play_now mpvFail "b" { queue_items := [itemA, itemB] }).1.queue_items =
      [itemB, itemA] ∧
    (play_now mpvFail "b" { queue_items := [itemA, itemB] }).1.playback =
      ({ queue_items := [itemA, itemB] } : ServerState).playback ∧
    (play_now mpvFail "b" { queue_items := [itemA, itemB] }).2.2 = 200 :=
  play_now_not_atomic_on_load_failure mpvFail { queue_items := [itemA, itemB] }
    "b" 1 itemB rfl (by decide) rfl (by decide) (by decide)

/-- Claim C8: `shuffle_queue` always produces a permutation of the queue
(multiset preserved), and when an item whose id matches the currently
playing id is present, that item ends at position 0 while the remaining
items are a permutation of the remaining set. -/
theorem shuffle_queue_spec (perm : List Item → List Item) (s : ServerState)
    (hperm : ∀ l, (perm l).Perm l) :
    ((shuffle_queue perm s).1.queue_items).Perm s.queue_items ∧
    (∀ (cid : String) (n : ℕ) (it : Item), s.playback.current_id = some cid →
      find_item_index_by_id s.queue_items cid = (n : Int) →
      s.queue_items.get? n = some it →
      (shuffle_queue perm s).1.queue_items.head? = some it ∧
      ((shuffle_queue perm s).1.queue_items.tail).Perm
        (s.queue_items.eraseIdx n)) := by
  constructor
  · cases hc : s.playback.current_id with
    | none =>
      simp only [shuffle_queue, hc]
      exact hperm _
    | some cid =>
      rcases find_spec s.queue_items cid with hneg | ⟨n, hn, it, hget, hid⟩
      · simp only [shuffle_queue, hc, hneg]
        norm_num
        exact hperm _
      · simp only [shuffle_queue, hc, hn, if_pos (Int.natCast_nonneg n),
          Int.toNat_natCast, hget]
        exact (List.Perm.cons it (hperm _)).trans
          (cons_eraseIdx_perm s.queue_items n it hget)
  · intro cid n it hc hfind hget
    simp only [shuffle_queue, hc, hfind, if_pos (Int.natCast_nonneg n),
      Int.toNat_natCast, hget]
    exact ⟨rfl, hperm _⟩

/-- Items used in the shuffle witness. -/
def itemX : Item := { id := "x", url := "ux", status := "ready", details := some (dSong "hx") }

/-- Another fixture item. -/
def itemD : Item := { id := "d", url := "ud", status := "loading" }

/-- Another fixture item. -/
def itemE : Item := { id := "e", url := "ue", status := "loading" }

/-- A five-item queue whose index-2 entry mirrors the playing track. -/
def sShuffle : ServerState :=
  { queue_items := [itemA, itemC, itemX, itemD, itemE]
    playback := { current_id := some "x", current_details := some (dSong "hx")
                  paused := false, volume := 50, time := 0, duration := 0 }
    autoplay_enabled := true }

/-- Claim C8 witness: on a five-item queue with the protected entry at
index 2 (the identity standing for the random permutation), the result
is a permutation of the queue, the protected item is at position 0 and
the tail is a permutation of the other four. -/
theorem shuffle_queue_spec_witness :
    ((shuffle_queue (fun l => l) sShuffle).1.queue_items).Perm
      sShuffle.queue_items ∧
    (shuffle_queue (fun l => l) sShuffle).1.queue_items.head? = some itemX ∧
    ((shuffle_queue (fun l => l) sShuffle).1.queue_items.tail).Perm
      (sShuffle.queue_items.eraseIdx 2) :=
  have h := shuffle_queue_spec (fun l => l) sShuffle (fun l => List.Perm.refl l)
  have h2 := h.2 "x" 2 itemX rfl (by decide) rfl
  ⟨h.1, h2.1, h2.2⟩

/-- The candidate slice is always part of the queue. -/
theorem next_candidates_sublist (s : ServerState) :
    (next_candidates s).Sublist s.queue_items := by
  unfold next_candidates
  cases s.playback.current_id with
  | none => exact List.Sublist.refl _
  | some cid =>
    by_cases h : 0 ≤ find_item_index_by_id s.queue_items cid
    · simp only [if_pos h]
      exact List.drop_sublist _ _
    · simp only [if_neg h]
      exact List.Sublist.refl _

/-- A queue of a pending A (index 0) and a resolved B (index 1), nothing
playing. -/
def sAB : ServerState := { queue_items := [itemA, itemB] }

/-- Claim C4 counterexample: after `play_next` starts B (which sat at
index 1), B is removed from the queue; once A (still at index 0, before
B's former position) resolves, a second `play_next` selects and plays A
rather than finding no item "strictly after B's former position among
the remaining queued items" and clearing `nowPlaying*` — because the
playing item is no longer in the queue, `find_item_index_by_id` returns
`-1` and the scan restarts at the head. -/
theorem play_next_counterexample :
    (play_next mpvOk sAB).1.playback.current_id = some "b" ∧
    (play_next mpvOk sAB).1.queue_items = [itemA] ∧
    (attach_ok mpvOk "a" (dSong "http-a")
      (play_next mpvOk sAB).1).1.queue_items = [itemAready] ∧
    (play_next mpvOk (attach_ok mpvOk "a" (dSong "http-a")
      (play_next mpvOk sAB).1).1).1.playback.current_id = some "a" := by
  refine ⟨?_, ?_, ?_, ?_⟩ <;> decide

/-- Claim C4 (amended): with autoplay enabled and a player that
acknowledges loads, `play_next` scans the candidate slice — the items
after the current id's index when that id is still found in the queue,
otherwise (in particular in every state where the playing item has
already been removed from the queue, which is every reachable one) the
whole remaining queue from the head — for the first item carrying
resolved details.  It plays the first such item, removing exactly that
item from the queue (the rest keep their relative order and unresolved
items are not removed); when no candidate exists and something is
recorded as playing it clears `nowPlaying*` and publishes an idle
snapshot; when no candidate exists and nothing is playing it is a
no-op. -/
theorem play_next_spec (mpv : MpvOracle) (s : ServerState)
    (hauto : s.autoplay_enabled = true)
    (hload : ∀ u, (mpv.loadfile u).error = some "success")
    (hready : ∀ it ∈ s.queue_items, it.details.isSome = true →
      pyTruthyStr (detailsOrEmpty it.details).audioUrl = true) :
    match (next_candidates s).find? hasDetails with
    | some it =>
        (play_next mpv s).1.playback.current_id = some it.id ∧
        (play_next mpv s).1.playback.current_details =
          some (detailsOrEmpty it.details) ∧
        (play_next mpv s).1.queue_items = removeFirstById s.queue_items it.id ∧
        ((play_next mpv s).1.queue_items).Sublist s.queue_items ∧
        (∀ x ∈ s.queue_items, x.id ≠ it.id → x ∈ (play_next mpv s).1.queue_items)
    | none =>
        match s.playback.current_id with
        | none => play_next mpv s = (s, [])
        | some _ =>
            (play_next mpv s).1.playback.current_id = none ∧
            (play_next mpv s).1.playback.current_details = none ∧
            (play_next mpv s).1.queue_items = s.queue_items ∧
            (play_next mpv s).2 = [Event.status {
              paused := true, time := 0, duration := 0
              volume := s.playback.volume, current := none }] := by
  cases hfind : (next_candidates s).find? hasDetails with
  | some it =>
    have hmem : it ∈ s.queue_items :=
      (next_candidates_sublist s).subset (List.mem_of_find?_eq_some hfind)
    have hdet : hasDetails it = true := List.find?_some hfind
    rw [hasDetails] at hdet
    have haudio := hready it hmem hdet
    have hplay := @play_item_success mpv it s haudio (hload _)
    have hres : play_next mpv s = play_item mpv it s := by
      simp only [play_next, hauto]
      rw [if_neg (by simp)]
      cases hc : s.playback.current_id with
      | none =>
        have : next_candidates s = s.queue_items := by
          unfold next_candidates
          rw [hc]
        rw [this] at hfind
        rw [hfind]
      | some cid =>
        rw [hfind]
    rw [hres, hplay]
    refine ⟨rfl, rfl, rfl, removeFirstById_sublist _ _, ?_⟩
    intro x hx hne
    exact mem_removeFirstById_of_ne hx hne
  | none =>
    cases hc : s.playback.current_id with
    | none =>
      have hq : s.queue_items.find? hasDetails = none := by
        have hnc : next_candidates s = s.queue_items := by
          unfold next_candidates
          rw [hc]
        rw [← hnc]
        exact hfind
      have hres : play_next mpv s = (s, []) := by
        simp only [play_next, hauto, hc, hq]
        rw [if_neg (by simp)]
      exact hres
    | some cid =>
      have hres : play_next mpv s =
          ({ s with playback := { s.playback with
              current_id := none, current_details := none } },
           [Event.status {
              paused := true, time := 0, duration := 0
              volume := s.playback.volume, current := none }]) := by
        simp only [play_next, hauto, hc, hfind]
        rw [if_neg (by simp)]
      rw [hres]
      exact ⟨rfl, rfl, rfl, rfl⟩

/-- Claim C4 witness for the amended statement: with queue
(pending A, resolved B) and nothing playing, `play_next` selects B —
skipping the unresolved A, which stays queued — and removes exactly B. -/
theorem play_next_spec_witness :
    (play_next mpvOk sAB).1.playback.current_id = some itemB.id ∧
    (play_next mpvOk sAB).1.queue_items = removeFirstById sAB.queue_items itemB.id ∧
    itemA ∈ (play_next mpvOk sAB).1.queue_items := by
  have h := play_next_spec mpvOk sAB rfl (fun _ => rfl) (by decide)
  rw [show (next_candidates sAB).find? hasDetails = some itemB from by decide] at h
  exact ⟨h.1, h.2.2.1, h.2.2.2.2 itemA (by decide) (by decide)⟩

/-! ### Invariant preservation (claim C2) -/

theorem stateInv_of_perm {s s2 : ServerState}
    (hq : s2.queue_items.Perm s.queue_items)
    (hc : s2.playback.current_id = s.playback.current_id)
    (h : StateInv s) : StateInv s2 := by
  refine ⟨?_, ?_⟩
  · exact (List.Perm.nodup_iff ((hq.map Item.id))).mpr h.1
  · intro cid hcid
    rw [hc] at hcid
    intro hmem
    exact h.2 cid hcid (((hq.map Item.id)).mem_iff.mp hmem)

theorem play_item_inv (mpv : MpvOracle) (item : Item) (s : ServerState)
    (h : StateInv s) : StateInv (play_item mpv item s).1 := by
  by_cases haudio : pyTruthyStr (detailsOrEmpty item.details).audioUrl = true
  · by_cases hsucc : (mpv.loadfile ((detailsOrEmpty item.details).audioUrl.getD
        "")).error = some "success"
    · rw [play_item_success s haudio hsucc]
      refine ⟨?_, ?_⟩
      · exact List.Nodup.sublist ((removeFirstById_sublist _ _).map Item.id) h.1
      · intro cid hcid
        simp only [Option.some_inj] at hcid
        subst hcid
        exact not_mem_removeFirstById h.1
    · rw [play_item_loadfail s hsucc]
      exact h
  · rw [play_item_noaudio s (by simpa using haudio)]
    exact h

theorem play_next_inv (mpv : MpvOracle) (s : ServerState)
    (h : StateInv s) : StateInv (play_next mpv s).1 := by
  unfold play_next
  split
  · exact h
  · split
    · split
      · exact play_item_inv _ _ _ h
      · exact h
    · split
      · exact play_item_inv _ _ _ h
      · exact ⟨h.1, by intro cid hcid; simp at hcid⟩

theorem stateInv_of_ids_eq {s : ServerState} {q2 : List Item}
    (hq : q2.map Item.id = s.queue_items.map Item.id)
    (h : StateInv s) :
    StateInv { s with queue_items := q2 } := by
  refine ⟨?_, ?_⟩
  · show (q2.map Item.id).Nodup
    rw [hq]
    exact h.1
  · intro cid hcid
    show cid ∉ q2.map Item.id
    rw [hq]
    exact h.2 cid hcid

theorem submit_url_inv (item_id url : String) (s : ServerState)
    (h : StateInv s) (hfresh : item_id ∉ s.queue_items.map Item.id)
    (hcur : s.playback.current_id ≠ some item_id) :
    StateInv (submit_url item_id url s) := by
  have h1 : (s.queue_items.map Item.id).Nodup := h.1
  refine ⟨?_, ?_⟩
  · show ((s.queue_items ++
      [({ id := item_id, url := url, status := "loading", details := none } : Item)]).map
        Item.id).Nodup
    rw [List.map_append]
    simp [List.nodup_append, h1, hfresh]
  · intro cid hcid
    show cid ∉ (s.queue_items ++
      [({ id := item_id, url := url, status := "loading", details := none } : Item)]).map
        Item.id
    rw [List.map_append]
    intro hmem
    rcases List.mem_append.mp hmem with hmem | hmem
    · exact h.2 cid hcid hmem
    · simp only [List.map_cons, List.map_nil, List.mem_cons, List.not_mem_nil,
        or_false] at hmem
      subst hmem
      exact hcur hcid

theorem stateInv_set {s : ServerState} {n : Nat} {it it2 : Item}
    (hget : s.queue_items.get? n = some it) (hid : it2.id = it.id)
    (h : StateInv s) :
    StateInv { s with queue_items := s.queue_items.set n it2 } :=
  stateInv_of_ids_eq (map_id_set hget hid) h

theorem attach_ok_inv (mpv : MpvOracle) (item_id : String) (d : Details)
    (s : ServerState) (h : StateInv s) : StateInv (attach_ok mpv item_id d s).1 := by
  simp only [attach_ok]
  split
  · split
    · rename_i it hget
      split
      · exact play_item_inv _ _ _ (stateInv_set hget rfl h)
      · exact stateInv_set hget rfl h
    · exact h
  · exact h

theorem attach_err_inv (item_id : String) (s : ServerState)
    (h : StateInv s) : StateInv (attach_err item_id s).1 := by
  simp only [attach_err]
  split
  · split
    · rename_i it hget
      exact stateInv_set hget rfl h
    · exact h
  · exact h

theorem stateInv_erase_clear {s : ServerState} (n : Nat) :
    StateInv s → StateInv { s with
      queue_items := s.queue_items.eraseIdx n
      playback := { s.playback with current_id := none, current_details := none } } := by
  intro h
  refine ⟨?_, ?_⟩
  · exact List.Nodup.sublist ((List.eraseIdx_sublist _ _).map Item.id) h.1
  · intro cid hcid
    simp at hcid

theorem stateInv_erase_keep {s : ServerState} (n : Nat) :
    StateInv s → StateInv { s with queue_items := s.queue_items.eraseIdx n } := by
  intro h
  refine ⟨?_, ?_⟩
  · exact List.Nodup.sublist ((List.eraseIdx_sublist _ _).map Item.id) h.1
  · intro cid hcid hmem
    exact h.2 cid hcid (((List.eraseIdx_sublist _ _).map Item.id).subset hmem)

theorem remove_item_inv (item_id : String) (s : ServerState)
    (h : StateInv s) : StateInv (remove_item item_id s).1 := by
  simp only [remove_item]
  split
  · exact h
  · split
    · split
      · exact stateInv_erase_clear _ h
      · exact stateInv_erase_keep _ h
    · exact h

theorem move_up_inv (item_id : String) (s : ServerState)
    (h : StateInv s) : StateInv (move_up item_id s).1 := by
  simp only [move_up]
  split
  · exact h
  · split
    · exact stateInv_of_perm (listSwap_perm _ _ _) rfl h
    · exact h

theorem move_down_inv (item_id : String) (s : ServerState)
    (h : StateInv s) : StateInv (move_down item_id s).1 := by
  simp only [move_down]
  split
  · exact h
  · split
    · exact stateInv_of_perm (listSwap_perm _ _ _) rfl h
    · exact h

theorem reorder_queue_inv (old_index new_index : Int) (s : ServerState)
    (h : StateInv s) : StateInv (reorder_queue old_index new_index s).1 := by
  simp only [reorder_queue]
  split
  · rename_i hcond
    split
    · rename_i it hget
      have hlen : old_index.toNat < s.queue_items.length := by omega
      have hlen2 : new_index.toNat ≤
          (s.queue_items.eraseIdx old_index.toNat).length := by
        rw [List.length_eraseIdx]
        simp only [hlen, if_true]
        omega
      have hperm : ((s.queue_items.eraseIdx old_index.toNat).insertIdx
          new_index.toNat it).Perm s.queue_items :=
        (insertIdx_perm _ _ _ hlen2).trans
          (cons_eraseIdx_perm s.queue_items old_index.toNat it hget)
      exact stateInv_of_perm hperm rfl h
    · exact h
  · exact h

theorem shuffle_queue_perm (perm : List Item → List Item) (s : ServerState)
    (hperm : ∀ l, (perm l).Perm l) :
    ((shuffle_queue perm s).1.queue_items).Perm s.queue_items := by
  cases hc : s.playback.current_id with
  | none =>
    simp only [shuffle_queue, hc]
    exact hperm _
  | some cid =>
    rcases find_spec s.queue_items cid with hneg | ⟨n, hn, it, hget, hid⟩
    · simp only [shuffle_queue, hc, hneg]
      norm_num
      exact hperm _
    · simp only [shuffle_queue, hc, hn, if_pos (Int.natCast_nonneg n),
        Int.toNat_natCast, hget]
      exact (List.Perm.cons it (hperm _)).trans
        (cons_eraseIdx_perm s.queue_items n it hget)

theorem shuffle_queue_inv (perm : List Item → List Item) (s : ServerState)
    (hperm : ∀ l, (perm l).Perm l)
    (h : StateInv s) : StateInv (shuffle_queue perm s).1 :=
  stateInv_of_perm (shuffle_queue_perm perm s hperm) (by rfl) h

theorem play_now_inv (mpv : MpvOracle) (item_id : String) (s : ServerState)
    (h : StateInv s) : StateInv (play_now mpv item_id s).1 := by
  simp only [play_now]
  split
  · exact h
  · split
    · rename_i item hget
      split
      · exact play_item_inv _ _ _
          (stateInv_of_perm (cons_eraseIdx_perm s.queue_items _ item hget) rfl h)
      · exact h
    · exact h

theorem clear_queue_inv (s : ServerState) (_h : StateInv s) :
    StateInv (clear_queue s).1 := by
  refine ⟨by simp [clear_queue, queueIds], ?_⟩
  intro cid hcid
  simp [clear_queue] at hcid

theorem control_stop_inv (s : ServerState) (h : StateInv s) :
    StateInv (control_stop s).1 := by
  refine ⟨h.1, ?_⟩
  intro cid hcid
  simp [control_stop] at hcid

theorem set_volume_inv (v : ℚ) (s : ServerState) (h : StateInv s) :
    StateInv (set_volume v s).1 :=
  ⟨h.1, fun cid hcid => h.2 cid hcid⟩

theorem poll_tick_inv (mpv : MpvOracle) (o : TickOracle) (s : ServerState)
    (h : StateInv s) : StateInv (poll_tick mpv o s).1 := by
  have hs1 : ∀ pb2 : PlaybackState, pb2.current_id = s.playback.current_id →
      StateInv { s with playback := pb2 } := by
    intro pb2 hc
    exact ⟨h.1, fun cid hcid => h.2 cid (by rw [← hc]; exact hcid)⟩
  simp only [poll_tick]
  repeat' split
  all_goals
    first
      | exact hs1 _ rfl
      | (apply play_next_inv; exact hs1 _ rfl)

theorem stepOp_inv (mpv : MpvOracle) (op : Op) (s : ServerState)
    (h : StateInv s) (hwf : OpWf op s) : StateInv (stepOp mpv op s) := by
  cases op with
  | submit id url => exact submit_url_inv id url s h hwf.1 hwf.2
  | attachOk id d => exact attach_ok_inv mpv id d s h
  | attachErr id => exact attach_err_inv id s h
  | playItemOp item => exact play_item_inv mpv item s h
  | playNextOp => exact play_next_inv mpv s h
  | playNow id => exact play_now_inv mpv id s h
  | removeItem id => exact remove_item_inv id s h
  | moveUp id => exact move_up_inv id s h
  | moveDown id => exact move_down_inv id s h
  | reorder o n => exact reorder_queue_inv o n s h
  | shuffle perm => exact shuffle_queue_inv perm s hwf h
  | clearOp => exact clear_queue_inv s h
  | stopOp => exact control_stop_inv s h
  | setVol v => exact set_volume_inv v s h
  | tick o => exact poll_tick_inv mpv o s h

theorem reachable_stateInv {mpv : MpvOracle} {s : ServerState}
    (h : Reachable mpv s) : StateInv s := by
  induction h with
  | init => exact ⟨List.nodup_nil, fun cid hcid => by simp [initState] at hcid⟩
  | step op _ hwf ih => exact stepOp_inv _ op _ ih hwf

/-- Claim C2: in every state reachable from process start through the
engine operations (submit with a fresh uuid, resolver attach, play-item,
play-next, play-now, remove, move-up/down, reorder, shuffle with a true
permutation, clear, stop, set-volume, poller tick), the currently
playing id — when set — names no item in the queue: starting playback
removes the item from the queue in the same step that installs it as
`nowPlaying*`, so the queued set and the playing item stay disjoint. -/
theorem playing_disjoint_from_queue (mpv : MpvOracle) (s : ServerState)
    (h : Reachable mpv s) :
    ∀ cid, s.playback.current_id = some cid → cid ∉ s.queue_items.map Item.id :=
  fun cid hcid => (reachable_stateInv h).2 cid hcid

/-- Claim C2 witness: after submitting item `b`, resolving it and
starting playback through the poller-independent director path, the
playing id `b` is absent from the queue of the reached state. -/
theorem playing_disjoint_from_queue_witness :
    "b" ∉ (stepOp mpvOk (Op.attachOk "b" (dSong "http-b"))
      (stepOp mpvOk (Op.submit "b" "ub") initState)).queue_items.map Item.id :=
  playing_disjoint_from_queue mpvOk _
    (Reachable.step (Op.attachOk "b" (dSong "http-b"))
      (Reachable.step (Op.submit "b" "ub") Reachable.init (by constructor <;> decide))
      trivial)
    "b" (by decide)
